import Mathlib

/- Verification of the floating-app launcher and configuration store
   (src/src/app_launcher.py and src/src/config_manager.py) against their
   natural-language specification, through a shallow embedding.

   Modelling conventions:
   * Python strings are Lean `String`s (length counts unicode code points,
     as Python `len` does).
   * JSON-representable Python values are the `JValue` type below.
   * The filesystem is an explicit association of paths to nodes; methods
     that touch the disk take and return this state.
   * Wall-clock quantities (the `execution_time` float of LaunchResult,
     real timestamps) are replaced by a logical clock that advances at
     each observation of the current time, so successive timestamps are
     distinct; `execution_time` itself is omitted.
   * I/O failures raised by the OS (OSError and friends) are outside the
     model: every modelled file operation succeeds.  Exceptions that the
     Python code itself can raise and does not catch (TypeError,
     AttributeError) are modelled with `Except`. -/

/-- Python `pat in s` substring test for strings, at character-list level. -/
def strContains (s pat : String) : Bool :=
  s.data.tails.any (fun t => pat.data.isPrefixOf t)

/-- Python `s.startswith(pre)`. -/
def strStartsWith (s pre : String) : Bool :=
  pre.data.isPrefixOf s.data

/-- Python `s.endswith(suf)`. -/
def strEndsWith (s suf : String) : Bool :=
  suf.data.isSuffixOf s.data

/-- Python `c in s` for a single character. -/
def strHasChar (s : String) (c : Char) : Bool :=
  s.data.contains c

/-- Python str.lower restricted to ASCII case folding (the extensions
compared with it are ASCII). -/
def strToLower (s : String) : String :=
  ⟨s.data.map Char.toLower⟩

/-- Split a character list at separator characters; every separator ends
a component, matching CPython path parsing. -/
def splitChars (sep : Char → Bool) : List Char → List (List Char)
  | [] => [[]]
  | c :: cs =>
    if sep c then [] :: splitChars sep cs
    else
      match splitChars sep cs with
      | r :: rs => (c :: r) :: rs
      | [] => [[c]]

/-- app_launcher.py lines 19-26: dataclass LaunchResult.  The
`execution_time` float field (wall-clock milliseconds) is not modelled. -/
structure LaunchResult where
  success : Bool
  process_id : Option Int := none
  error_code : Option Int := none
  error_message : Option String := none
deriving DecidableEq, Repr

/-- A filesystem node as the launcher sees it: a directory, or a regular
file with its byte size. -/
inductive FileNode where
  | dir
  | file (size : Nat)
deriving DecidableEq, Repr

/-- The filesystem visible to AppLauncher: paths mapped to nodes. -/
structure LFS where
  nodes : List (String × FileNode)
deriving Repr

/-- Path lookup (the single backing primitive for exists/is_dir/stat). -/
def LFS.lookup (fs : LFS) (p : String) : Option FileNode :=
  (fs.nodes.find? (fun e => e.1 = p)).map (fun e => e.2)

/-- os.path.exists / Path.exists. -/
def LFS.pathExists (fs : LFS) (p : String) : Bool :=
  (fs.lookup p).isSome

/-- Path.is_dir. -/
def LFS.isDir (fs : LFS) (p : String) : Bool :=
  match fs.lookup p with
  | some .dir => true
  | _ => false

/-- Path.stat().st_size; only consulted on existing regular files. -/
def LFS.statSize (fs : LFS) (p : String) : Nat :=
  match fs.lookup p with
  | some (.file sz) => sz
  | _ => 0

/-- pathlib PurePath.name on Windows: the final path component, with both
separators recognised and empty components (trailing separators) dropped.
Drive-letter prefixes without a separator are not split off; no code path
of the claims depends on that corner. -/
def pathName (p : String) : String :=
  ⟨((splitChars (fun c => c == '/' || c == '\\') p.data).filter (fun s => s ≠ [])).getLastD []⟩

/-- pathlib PurePath.suffix: from the final component, the part from the
last dot onward, provided that dot is neither the first nor the last
character of the component. -/
def pathSuffix (p : String) : String :=
  let name := pathName p
  match name.data.reverse.findIdx? (fun c => c == '.') with
  | none => ""
  | some r =>
    let i := name.length - 1 - r
    if 0 < i ∧ i < name.length - 1 then name.drop i else ""

/-- AppLauncher.MAX_PATH_LENGTH (app_launcher.py line 44). -/
def MAX_PATH_LENGTH : Nat := 260

/-- AppLauncher.VALID_EXTENSIONS (app_launcher.py line 45). -/
def VALID_EXTENSIONS : List String := [".exe", ".com", ".bat", ".cmd", ".msi", ".ps1"]

/-- AppLauncher.INVALID_CHARS (app_launcher.py line 46).  The source keeps
these in a Python set, whose iteration order is unspecified; the list
fixes one order, which only influences which of several offending
characters is named in the error message. -/
def INVALID_CHARS : List Char := ['<', '>', '|', '\"', '*', '?']

/-- AppLauncher.is_valid_executable (app_launcher.py lines 138-171),
mirroring the source's sequence of early returns. -/
def is_valid_executable (fs : LFS) (file_path : String) : Bool :=
  if !(fs.pathExists file_path) then false
  else if fs.isDir file_path then false
  else if !(VALID_EXTENSIONS.contains (strToLower (pathSuffix file_path))) then false
  else if fs.statSize file_path == 0 then false
  else true

/-- ntpath.splitdrive restricted to its second component (the path after
the drive), following the classic CPython implementation: a leading
double separator introduces a UNC share, a letter followed by a colon is
a drive. -/
def splitdriveRest (p : String) : String :=
  if p.length ≥ 2 then
    let normp := p.data.map (fun c => if c == '/' then '\\' else c)
    if normp.take 2 = ['\\', '\\'] ∧ normp.get? 2 ≠ some '\\' then
      match (normp.drop 2).findIdx? (fun c => c == '\\') with
      | none => p
      | some i =>
        let index := i + 2
        match (normp.drop (index + 1)).findIdx? (fun c => c == '\\') with
        | some 0 => p
        | some j => p.drop (index + 1 + j)
        | none => ""
    else if normp.get? 1 = some ':' then p.drop 2
    else p
  else p

/-- ntpath.isabs, i.e. os.path.isabs on the Windows target: after
stripping the drive, the remainder is nonempty and starts with a
separator. -/
def isabs (p : String) : Bool :=
  match (splitdriveRest p).data with
  | [] => false
  | c :: _ => c == '/' || c == '\\'

/-- Error message of the path-length check (app_launcher.py line 339). -/
def tooLongMsg : String := "ファイルパスが長すぎます"

/-- Error message of the traversal check (app_launcher.py line 343). -/
def traversalMsg : String := "セキュリティエラー: 不正なパス形式です"

/-- Error message of the character check (app_launcher.py line 348). -/
def invalidCharMsg (c : Char) : String :=
  "セキュリティエラー: 無効な文字が含まれています: " ++ c.toString

/-- Error message of the absolute-path check (app_launcher.py line 352). -/
def notAbsoluteMsg : String := "セキュリティエラー: 絶対パスを指定してください"

/-- Error message of the UNC check (app_launcher.py line 356). -/
def uncMsg : String := "セキュリティエラー: ネットワークパスはサポートされていません"

/-- AppLauncher._validate_security (app_launcher.py lines 326-361).  All
five checks are pure string computations, so the surrounding
try/except branch of the source is dead and does not appear. -/
def validate_security (file_path : String) : Bool × Option String :=
  if file_path.length > MAX_PATH_LENGTH then (false, some tooLongMsg)
  else if strContains file_path ".." then (false, some traversalMsg)
  else
    match INVALID_CHARS.find? (fun c => strHasChar file_path c) with
    | some c => (false, some (invalidCharMsg c))
    | none =>
      if !(isabs file_path) then (false, some notAbsoluteMsg)
      else if strStartsWith file_path "\\\\" then (false, some uncMsg)
      else (true, none)

/-- Exceptions subprocess.Popen can raise, as distinguished by the
handlers of app_launcher.py lines 112-136. -/
inductive SpawnExc where
  | fileNotFound (msg : String)
  | permissionDenied (msg : String)
  | osError (errno : Int) (msg : String)
  | unexpected (msg : String)
deriving DecidableEq, Repr

/-- The environment a launch runs against: the filesystem plus an oracle
for subprocess.Popen, yielding a pid or the exception raised. -/
structure LaunchEnv where
  lfs : LFS
  spawn : String → List String → Except SpawnExc Int

/-- AppLauncher.launch_application (app_launcher.py lines 54-136): the
LaunchResult, paired with whether subprocess.Popen was reached. -/
def launch_application (env : LaunchEnv) (app_path : String) (args : List String) :
    LaunchResult × Bool :=
  let security_check := validate_security app_path
  if !security_check.1 then
    ({ success := false, error_message := security_check.2 }, false)
  else if !(env.lfs.pathExists app_path) then
    ({ success := false,
       error_message := some ("指定されたファイルが見つかりません: " ++ app_path) }, false)
  else if !(is_valid_executable env.lfs app_path) then
    ({ success := false,
       error_message := some ("無効なファイル形式です: " ++ app_path) }, false)
  else
    match env.spawn app_path args with
    | .ok pid => ({ success := true, process_id := some pid }, true)
    | .error (.fileNotFound m) =>
      ({ success := false, error_message := some ("ファイルが見つかりません: " ++ m) }, true)
    | .error (.permissionDenied m) =>
      ({ success := false, error_message := some ("権限が不足しています: " ++ m) }, true)
    | .error (.osError code m) =>
      ({ success := false, error_code := some code,
         error_message := some ("システムエラー: " ++ m) }, true)
    | .error (.unexpected m) =>
      ({ success := false, error_message := some ("予期しないエラー: " ++ m) }, true)

/-- AppLauncher.launch_with_admin (app_launcher.py lines 205-242): the
runas command line is assembled but deliberately never executed. -/
def launch_with_admin (app_path : String) (args : List String) : LaunchResult × Bool :=
  let quotedLine :=
    "\"" ++ app_path ++ "\"" ++
      (if args ≠ [] then
        " " ++ String.intercalate " " (args.map (fun a => "\"" ++ a ++ "\"")) else "")
  let _cmd := ["runas", "/user:Administrator", quotedLine]
  ({ success := true, process_id := none }, false)

/-- The five security violations named by the specification. -/
def violatesSecurity (p : String) : Bool :=
  decide (p.length > 260) || strContains p ".." ||
    INVALID_CHARS.any (fun c => strHasChar p c) ||
    !(isabs p) || strStartsWith p "\\\\"

/-- All error messages _validate_security can produce. -/
def securityMessages : List String :=
  [tooLongMsg, traversalMsg, notAbsoluteMsg, uncMsg] ++ INVALID_CHARS.map invalidCharMsg

/-- The specification's characterisation of a valid executable. -/
def validExecutableSpec (fs : LFS) (p : String) : Prop :=
  fs.pathExists p = true ∧ fs.isDir p = false ∧
    strToLower (pathSuffix p) ∈ VALID_EXTENSIONS ∧ fs.statSize p > 0

/-- JSON-representable Python values (config_manager.py works on the
result of json.load / the argument of json.dump).  Python bool is a
subclass of int, which the isinstance predicates below reflect. -/
inductive JValue where
  | jnull
  | jbool (b : Bool)
  | jint (n : Int)
  | jstr (s : String)
  | jarr (elems : List JValue)
  | jobj (entries : List (String × JValue))

/-- Python `d[k]` lookup on a dict, as the first matching entry. -/
def objFind (es : List (String × JValue)) (k : String) : Option JValue :=
  (es.find? (fun e => e.1 = k)).map (fun e => e.2)

/-- Python `d.get(k, dflt)`; `d.get(k)` is `objGetD es k .jnull` because
None fails every isinstance test the way jnull does. -/
def objGetD (es : List (String × JValue)) (k : String) (dflt : JValue) : JValue :=
  (objFind es k).getD dflt

/-- Python `d[k] = v`: replace in place if the key exists, else append. -/
def objSet (es : List (String × JValue)) (k : String) (v : JValue) :
    List (String × JValue) :=
  if es.any (fun e => e.1 = k) then
    es.map (fun e => if e.1 = k then (k, v) else e)
  else es ++ [(k, v)]

/-- config_manager.py line 52: drop the _metadata key. -/
def stripMeta (es : List (String × JValue)) : List (String × JValue) :=
  es.filter (fun e => e.1 ≠ "_metadata")

/-- isinstance(x, str). -/
def isinstStr : JValue → Bool
  | .jstr _ => true
  | _ => false

/-- isinstance(x, dict). -/
def isinstDict : JValue → Bool
  | .jobj _ => true
  | _ => false

/-- isinstance(x, bool). -/
def isinstBool : JValue → Bool
  | .jbool _ => true
  | _ => false

/-- isinstance(x, int): Python bools are ints. -/
def isinstInt : JValue → Bool
  | .jint _ => true
  | .jbool _ => true
  | _ => false

/-- Numeric value used in range comparisons (True is 1, False is 0). -/
def jintVal : JValue → Int
  | .jint n => n
  | .jbool b => if b then 1 else 0
  | _ => 0

/-- Exceptions the config-manager code can raise past its own handlers,
plus the fuel marker of the load model (unreachable at fuel two or
more, see load_config). -/
inductive PyExc where
  | typeError
  | attributeError
  | fuelExhausted
deriving DecidableEq, Repr

/-- The entries of the default configuration. -/
def defaultEntries : List (String × JValue) :=
  [("app_path", .jstr ""),
   ("icon_position", .jobj [("x", .jint 100), ("y", .jint 100)]),
   ("icon_fixed", .jbool false),
   ("auto_start", .jbool false),
   ("icon_size", .jint 32),
   ("version", .jstr "1.0.0")]

/-- ConfigManager.get_default_config (config_manager.py lines 112-129). -/
def default_config : JValue := .jobj defaultEntries

/-- The six required keys (config_manager.py line 144). -/
def requiredKeys : List String :=
  ["app_path", "icon_position", "icon_fixed", "auto_start", "icon_size", "version"]

/-- Python `key in config`: membership for dicts, element equality for
lists, substring for strings, TypeError otherwise. -/
def pyContains (config : JValue) (key : String) : Except PyExc Bool :=
  match config with
  | .jobj es => .ok (es.any (fun e => e.1 = key))
  | .jarr xs => .ok (xs.any (fun x => match x with | .jstr s => s = key | _ => false))
  | .jstr s => .ok (strContains s key)
  | _ => .error .typeError

/-- Missing-key message (config_manager.py line 147; the single quotes
around the key of the source message are elided, no claim depends on
the exact text). -/
def missingMsg (k : String) : String := "必須キー " ++ k ++ " が存在しません"

/-- The missing-key loop of validate_config (config_manager.py 145-148). -/
def missingKeyErrors (config : JValue) : List String → Except PyExc (List String)
  | [] => .ok []
  | k :: ks =>
    match pyContains config k with
    | .error e => .error e
    | .ok b =>
      match missingKeyErrors config ks with
      | .error e => .error e
      | .ok rest => .ok ((if !b then [missingMsg k] else []) ++ rest)

/-- The per-coordinate checks on icon_position (config_manager.py 163-169). -/
def coordErrors (ip : List (String × JValue)) (coord : String) : List String :=
  match objFind ip coord with
  | none => ["icon_position." ++ coord ++ " が存在しません"]
  | some v =>
    if !(isinstInt v) then ["icon_position." ++ coord ++ " は整数である必要があります"]
    else if !(decide (-32768 ≤ jintVal v ∧ jintVal v ≤ 32767)) then
      ["icon_position." ++ coord ++ " は -32768 から 32767 の範囲内である必要があります"]
    else []

/-- The field checks of validate_config once all required keys are
present and the argument is a dict (config_manager.py lines 153-188),
in source order. -/
def validateObjErrors (es : List (String × JValue)) : List String :=
  (if !(isinstStr (objGetD es "app_path" (.jstr ""))) then
    ["app_path は文字列である必要があります"] else []) ++
  (match objGetD es "icon_position" (.jobj []) with
   | .jobj ip => coordErrors ip "x" ++ coordErrors ip "y"
   | _ => ["icon_position は辞書である必要があります"]) ++
  (if !(isinstBool (objGetD es "icon_fixed" .jnull)) then
    ["icon_fixed はブール値である必要があります"] else []) ++
  (if !(isinstBool (objGetD es "auto_start" .jnull)) then
    ["auto_start はブール値である必要があります"] else []) ++
  (let icon_size := objGetD es "icon_size" .jnull
   if !(isinstInt icon_size) then ["icon_size は整数である必要があります"]
   else if !(decide (16 ≤ jintVal icon_size ∧ jintVal icon_size ≤ 128)) then
     ["icon_size は 16 から 128 の範囲内である必要があります"] else []) ++
  (if !(isinstStr (objGetD es "version" .jnull)) then
    ["version は文字列である必要があります"] else [])

/-- ConfigManager.validate_config (config_manager.py lines 131-190).  On
a non-dict argument, the `in` tests of the missing-key loop raise
TypeError for non-iterables, and the later `.get` accesses raise
AttributeError; both escape the method, which has no handler. -/
def validate_config (config : JValue) : Except PyExc (Bool × List String) :=
  match missingKeyErrors config requiredKeys with
  | .error e => .error e
  | .ok merr =>
    if !merr.isEmpty then .ok (false, merr)
    else
      match config with
      | .jobj es =>
        let errors := validateObjErrors es
        .ok (errors.isEmpty, errors)
      | _ => .error .attributeError

/-- The six type checks of _basic_validation (config_manager.py 321-328),
with the Python type names used in the messages. -/
def typeChecks : List (String × String × (JValue → Bool)) :=
  [("app_path", "str", isinstStr),
   ("icon_position", "dict", isinstDict),
   ("icon_fixed", "bool", isinstBool),
   ("auto_start", "bool", isinstBool),
   ("icon_size", "int", isinstInt),
   ("version", "str", isinstStr)]

/-- One iteration of the type-check loop of _basic_validation
(config_manager.py lines 330-332): an error message when the key is
present with the wrong type, nothing otherwise. -/
def basicCheckError (es : List (String × JValue))
    (tc : String × String × (JValue → Bool)) : Option String :=
  match objFind es tc.1 with
  | some v =>
    if !(tc.2.2 v) then some (tc.1 ++ " は " ++ tc.2.1 ++ " 型である必要があります")
    else none
  | none => none

/-- ConfigManager._basic_validation (config_manager.py lines 303-334):
a non-dict is rejected outright; otherwise each required key present
with the wrong type contributes one error. -/
def basic_validation (config : JValue) : Bool × List String :=
  match config with
  | .jobj es =>
    let errors := typeChecks.filterMap (basicCheckError es)
    (errors.isEmpty, errors)
  | _ => (false, ["設定は辞書形式である必要があります"])

/-- A file of the configuration store: its JSON content (`none` when the
bytes do not parse, raising json.JSONDecodeError on load) and its
modification time.  shutil.copy2 preserves mtime. -/
structure CFile where
  content : Option JValue
  mtime : Nat

/-- The files ConfigManager touches: the live config.json and the files
of the sibling backups directory, identified by bare filename.  The
directory layout (os.path.join of config dir and backups dir) is fixed,
so keys carry only the distinguishing part. -/
inductive FKey where
  | config
  | backup (name : String)
deriving DecidableEq, Repr

/-- The configuration store state: files plus a logical clock standing
for datetime.now, advanced at each observation so that successive
timestamps differ (the source formats them to whole seconds). -/
structure CfgFS where
  files : List (FKey × CFile)
  clock : Nat

/-- File lookup by key. -/
def fsLookup (fs : CfgFS) (k : FKey) : Option CFile :=
  (fs.files.find? (fun e => e.1 = k)).map (fun e => e.2)

/-- os.path.exists. -/
def fsExists (fs : CfgFS) (k : FKey) : Bool :=
  (fsLookup fs k).isSome

/-- Replace or create the file at a key.  The entry order of `files`
models directory-listing order, which the source never relies on (it
sorts before acting). -/
def fsSet (fs : CfgFS) (k : FKey) (f : CFile) : CfgFS :=
  { fs with files := (k, f) :: fs.files.filter (fun e => e.1 ≠ k) }

/-- open(...,'w') + json.dump: writes parseable content, stamps the
current time as mtime, and advances the clock past that observation. -/
def fsWrite (fs : CfgFS) (k : FKey) (v : JValue) : CfgFS :=
  { (fsSet fs k ⟨some v, fs.clock⟩) with clock := fs.clock + 1 }

/-- shutil.copy2: duplicate content and metadata (mtime) of an existing
source; the code only copies files it has just checked to exist. -/
def fsCopy2 (fs : CfgFS) (src dst : FKey) : CfgFS :=
  match fsLookup fs src with
  | some f => fsSet fs dst f
  | none => fs

/-- os.remove. -/
def fsRemove (fs : CfgFS) (k : FKey) : CfgFS :=
  { fs with files := fs.files.filter (fun e => e.1 ≠ k) }

/-- The backup-name filter of config_manager.py lines 266-267 and 296-297:
startswith('config_backup_') and endswith('.json'). -/
def isBackupName (n : String) : Bool :=
  strStartsWith n "config_backup_" && strEndsWith n ".json"

/-- os.listdir of the backup directory filtered to backup names, paired
with os.path.getmtime, as built by _try_restore_from_latest_backup and
_cleanup_old_backups (config_manager.py 265-269 and 348-352).  The
source pairs each mtime with the full backup path; all those paths share
the directory prefix, so comparing bare names is the same order. -/
def backupEntry? (e : FKey × CFile) : Option (Nat × String) :=
  match e.1 with
  | .backup n => if isBackupName n then some (e.2.mtime, n) else none
  | .config => none

def backupFiles (fs : CfgFS) : List (Nat × String) :=
  fs.files.filterMap backupEntry?

/-- ConfigManager._get_backup_count (config_manager.py lines 285-301). -/
def get_backup_count (fs : CfgFS) : Nat :=
  (backupFiles fs).length

/-- Python tuple comparison on (mtime, path) pairs, the sort key of
list.sort in the backup routines. -/
def pairLeP (a b : Nat × String) : Prop :=
  a.1 < b.1 ∨ (a.1 = b.1 ∧ a.2 ≤ b.2)

instance : DecidableRel pairLeP := fun a b => by
  unfold pairLeP
  infer_instance

instance : IsTotal (Nat × String) pairLeP :=
  ⟨fun a b => by
    unfold pairLeP
    rcases Nat.lt_trichotomy a.1 b.1 with h | h | h
    · exact Or.inl (Or.inl h)
    · rcases le_total a.2 b.2 with hs | hs
      · exact Or.inl (Or.inr ⟨h, hs⟩)
      · exact Or.inr (Or.inr ⟨h.symm, hs⟩)
    · exact Or.inr (Or.inl h)⟩

instance : IsTrans (Nat × String) pairLeP :=
  ⟨fun a b c h1 h2 => by
    unfold pairLeP at *
    rcases h1 with h1 | ⟨h1e, h1s⟩ <;> rcases h2 with h2 | ⟨h2e, h2s⟩
    · exact Or.inl (h1.trans h2)
    · exact Or.inl (h2e ▸ h1)
    · exact Or.inl (h1e ▸ h2)
    · exact Or.inr ⟨h1e.trans h2e, h1s.trans h2s⟩⟩

/-- Python list.sort on (mtime, path) pairs: a stable ascending sort,
modelled by insertion sort, which is stable and agrees with CPython
timsort on every ordering claim made here. -/
def pySort (l : List (Nat × String)) : List (Nat × String) :=
  l.insertionSort pairLeP

/-- ConfigManager._cleanup_old_backups with the default max_backups = 5
(config_manager.py lines 336-361): when more than five backups match,
sort ascending by (mtime, path) and delete all but the last five. -/
def cleanup_old_backups (fs : CfgFS) : CfgFS :=
  let backup_files := backupFiles fs
  if 5 < backup_files.length then
    ((pySort backup_files).take (backup_files.length - 5)).foldl
      (fun f e => fsRemove f (.backup e.2)) fs
  else fs

/-- datetime.now().strftime of config_manager.py line 213, under the
logical clock: an injective textual timestamp. -/
def backupStamp (ts : Nat) : String :=
  "config_backup_" ++ toString ts ++ ".json"

/-- ConfigManager.backup_config (config_manager.py lines 202-225):
nothing to do without a live file; otherwise copy it to a timestamped
backup name and rotate old backups. -/
def backup_config (fs : CfgFS) : Option String × CfgFS :=
  if !(fsExists fs .config) then (none, fs)
  else
    (some (backupStamp fs.clock),
      cleanup_old_backups
        (fsCopy2 ⟨fs.files, fs.clock + 1⟩ .config (.backup (backupStamp fs.clock))))

/-- ConfigManager.save_config (config_manager.py lines 75-110): basic
validation, backup of an existing file, then the write of the input
with _metadata attached.  The non-dict fallthrough of the final match
is unreachable because _basic_validation rejects non-dicts. -/
def save_config (fs : CfgFS) (config : JValue) : Bool × CfgFS :=
  if !(basic_validation config).1 then (false, fs)
  else
    let fs1 := if fsExists fs .config then (backup_config fs).2 else fs
    let meta : JValue := .jobj [("last_modified", .jstr (toString fs1.clock)),
                               ("backup_count", .jint (get_backup_count fs1))]
    match config with
    | .jobj es => (true, fsWrite fs1 .config (.jobj (objSet es "_metadata" meta)))
    | _ => (false, fs1)

/-- ConfigManager.restore_from_backup (config_manager.py lines 227-251):
false when the backup does not exist; json.load of the backup raises
JSONDecodeError on unparsable content, caught and turned into false
before any copy; otherwise copy over the live file and return true. -/
def restore_from_backup (fs : CfgFS) (backup_path : FKey) : Bool × CfgFS :=
  match fsLookup fs backup_path with
  | none => (false, fs)
  | some f =>
    match f.content with
    | none => (false, fs)
    | some _ => (true, fsCopy2 fs backup_path .config)

/-- The restore loop of _try_restore_from_latest_backup
(config_manager.py lines 276-278). -/
def tryRestoreLoop : CfgFS → List (Nat × String) → Bool × CfgFS
  | fs, [] => (false, fs)
  | fs, e :: rest =>
    let r := restore_from_backup fs (.backup e.2)
    if r.1 then (true, r.2) else tryRestoreLoop r.2 rest

/-- ConfigManager._try_restore_from_latest_backup (config_manager.py
lines 253-283).  list.sort(reverse=True) on pairwise-distinct keys
(paths are distinct) equals the ascending sort reversed. -/
def try_restore_from_latest_backup (fs : CfgFS) : Bool × CfgFS :=
  if (backupFiles fs).isEmpty then (false, fs)
  else tryRestoreLoop fs (pySort (backupFiles fs)).reverse

/-- ConfigManager.load_config (config_manager.py lines 39-73), with fuel
for the retry after a successful restore.  A successful restore always
leaves parseable content at the live file, so with fuel two the
fuelExhausted branch is unreachable.  A non-dict parse result makes
`config.items()` raise AttributeError, which no handler of the source
catches. -/
def load_config_fuel : Nat → CfgFS → Except PyExc (JValue × CfgFS)
  | 0, _ => .error .fuelExhausted
  | n + 1, fs =>
    match fsLookup fs .config with
    | some f =>
      match f.content with
      | some (.jobj es) => .ok (.jobj (stripMeta es), fs)
      | some _ => .error .attributeError
      | none =>
        if (try_restore_from_latest_backup fs).1 then
          load_config_fuel n (try_restore_from_latest_backup fs).2
        else
          .ok (default_config,
            (save_config (try_restore_from_latest_backup fs).2 default_config).2)
    | none =>
      .ok (default_config, (save_config fs default_config).2)

/-- ConfigManager.load_config at fuel two (one retry, as in the source). -/
def load_config (fs : CfgFS) : Except PyExc (JValue × CfgFS) :=
  load_config_fuel 2 fs

/-- Number of entries of a JSON object (0 otherwise); separates unequal
objects by a projection. -/
def objLen : JValue → Nat
  | .jobj l => l.length
  | _ => 0

/-- The claim-side predicate of C8: some required key is present with the
wrong primitive type (Python isinstance semantics, so a bool passes the
int check). -/
def hasWrongType (es : List (String × JValue)) : Bool :=
  typeChecks.any (fun tc =>
    match objFind es tc.1 with
    | some v => !(tc.2.2 v)
    | none => false)

/-- A schema-valid configuration carrying its own _metadata key. -/
def metaConfig : JValue :=
  .jobj [("app_path", .jstr ""),
         ("icon_position", .jobj [("x", .jint 100), ("y", .jint 100)]),
         ("icon_fixed", .jbool false),
         ("auto_start", .jbool false),
         ("icon_size", .jint 32),
         ("version", .jstr "1.0.0"),
         ("_metadata", .jint 5)]

/-- The example configuration of the specification: icon_position.x far
out of range, everything else well-typed. -/
def rangeCfg : List (String × JValue) :=
  [("app_path", .jstr ""),
   ("icon_position", .jobj [("x", .jint 9999999), ("y", .jint 5)]),
   ("icon_fixed", .jbool false),
   ("auto_start", .jbool false),
   ("icon_size", .jint 32),
   ("version", .jstr "1.0.0")]

/-- The error message of an out-of-range icon_position.x. -/
def xRangeMsg : String := "icon_position.x は -32768 から 32767 の範囲内である必要があります"

/-- A store with a live config and one backup whose bytes do not parse. -/
def brokenBackupFS : CfgFS :=
  ⟨[(.config, ⟨some default_config, 0⟩),
    (.backup "config_backup_1.json", ⟨none, 1⟩)], 2⟩

/-- A store whose live file is malformed, with an older object-valued
backup and a more recent backup holding the JSON array [1]. -/
def corruptFS : CfgFS :=
  ⟨[(.config, ⟨none, 0⟩),
    (.backup "config_backup_1.json", ⟨some default_config, 1⟩),
    (.backup "config_backup_2.json", ⟨some (.jarr [.jint 1]), 2⟩)], 5⟩

/-- A store whose live file is malformed with a single object-valued
backup. -/
def recoverFS : CfgFS :=
  ⟨[(.config, ⟨none, 0⟩),
    (.backup "config_backup_1.json", ⟨some (.jobj [("a", .jint 1)]), 1⟩)], 5⟩

/-- The iterated save of the concrete rotation scenario. -/
def saveN : Nat → CfgFS → CfgFS
  | 0, fs => fs
  | n + 1, fs => saveN n (save_config fs default_config).2

/-- Six well-formed backups with no live configuration file. -/
def sixBackupFS : CfgFS :=
  ⟨[(.backup "config_backup_1.json", ⟨some default_config, 1⟩),
    (.backup "config_backup_2.json", ⟨some default_config, 2⟩),
    (.backup "config_backup_3.json", ⟨some default_config, 3⟩),
    (.backup "config_backup_4.json", ⟨some default_config, 4⟩),
    (.backup "config_backup_5.json", ⟨some default_config, 5⟩),
    (.backup "config_backup_6.json", ⟨some default_config, 6⟩)], 10⟩

theorem invalidCharMsg_ne_empty (c : Char) : invalidCharMsg c ≠ "" := by
  intro hc
  have hlen : (invalidCharMsg c).length = 0 := by rw [hc]; rfl
  rw [invalidCharMsg, String.length_append] at hlen
  have hpre : ("セキュリティエラー: 無効な文字が含まれています: " : String).length = 26 := rfl
  omega

theorem bool_eq_false {b : Bool} (h : ¬ b = true) : b = false := by
  cases b
  · rfl
  · exact absurd rfl h

theorem validate_security_rejects (p : String) (h : violatesSecurity p = true) :
    ∃ m, validate_security p = (false, some m) ∧ m ≠ "" ∧ m ∈ securityMessages := by
  unfold validate_security
  by_cases h1 : p.length > MAX_PATH_LENGTH
  · rw [if_pos h1]
    exact ⟨tooLongMsg, rfl, by decide, by decide⟩
  · rw [if_neg h1]
    by_cases h2 : strContains p ".." = true
    · rw [if_pos h2]
      exact ⟨traversalMsg, rfl, by decide, by decide⟩
    · rw [if_neg h2]
      cases hfind : INVALID_CHARS.find? (fun c => strHasChar p c) with
      | some c =>
        simp only [hfind]
        have hcmem : c ∈ INVALID_CHARS := List.mem_of_find?_eq_some hfind
        exact ⟨invalidCharMsg c, rfl, invalidCharMsg_ne_empty c,
          List.mem_append_right _ (List.mem_map_of_mem invalidCharMsg hcmem)⟩
      | none =>
        simp only [hfind]
        have hany : INVALID_CHARS.any (fun c => strHasChar p c) = false := by
          rw [List.any_eq_false]
          intro c hc
          exact List.find?_eq_none.mp hfind c hc
        by_cases h4 : isabs p = true
        · have h5 : strStartsWith p "\\\\" = true := by
            cases hb : strStartsWith p "\\\\"
            · exfalso
              have hlen : decide (p.length > 260) = false := decide_eq_false h1
              unfold violatesSecurity at h
              rw [hlen, bool_eq_false h2, hany, h4, hb] at h
              simp at h
            · rfl
          simp only [h4, Bool.not_true, Bool.false_eq_true, if_false, h5, if_pos]
          exact ⟨uncMsg, rfl, by decide, by decide⟩
        · rw [bool_eq_false h4]
          simp only [Bool.not_false, if_true]
          exact ⟨notAbsoluteMsg, rfl, by decide, by decide⟩

/-- C1: whenever the input path violates one of the five security checks
(length over 260, a `..` substring, a forbidden character, a relative
path, a UNC prefix), launch_application fails with the distinct non-empty
message of the first violated check, subprocess.Popen is never reached,
and the validation itself is a total function. -/
theorem launch_application_security_rejection
    (env : LaunchEnv) (p : String) (args : List String)
    (h : violatesSecurity p = true) :
    (validate_security p).1 = false ∧
    (∃ m, (validate_security p).2 = some m ∧ m ≠ "" ∧ m ∈ securityMessages) ∧
    launch_application env p args =
      ({ success := false, error_message := (validate_security p).2 }, false) ∧
    securityMessages.Pairwise (fun a b => a ≠ b) := by
  obtain ⟨m, heq, hne, hmem⟩ := validate_security_rejects p h
  refine ⟨by rw [heq], ⟨m, by rw [heq], hne, hmem⟩, ?_, by decide⟩
  unfold launch_application
  rw [heq]
  rfl

/-- Witness for C1 at the concrete traversal input `../x.exe`. -/
theorem launch_application_security_rejection_witness :
    violatesSecurity "../x.exe" = true ∧
      (launch_application ⟨⟨[]⟩, fun _ _ => Except.error (SpawnExc.unexpected "")⟩
        "../x.exe" []).1.success = false := by
  have h : violatesSecurity "../x.exe" = true := by decide
  refine ⟨h, ?_⟩
  have := launch_application_security_rejection
    ⟨⟨[]⟩, fun _ _ => Except.error (SpawnExc.unexpected "")⟩ "../x.exe" [] h
  rw [this.2.2.1]

/-- C9: is_valid_executable is true exactly when the path exists, is not
a directory, carries a whitelisted extension compared case-insensitively,
and has size strictly greater than zero; in particular a zero-byte file
with a valid extension and a directory both fail. -/
theorem is_valid_executable_characterisation :
    (∀ (fs : LFS) (p : String),
      is_valid_executable fs p = true ↔ validExecutableSpec fs p) ∧
    is_valid_executable ⟨[("C:\\apps\\z.exe", .file 0)]⟩ "C:\\apps\\z.exe" = false ∧
    is_valid_executable ⟨[("C:\\apps\\d.exe", .dir)]⟩ "C:\\apps\\d.exe" = false := by
  refine ⟨fun fs p => ?_, by decide, by decide⟩
  unfold is_valid_executable validExecutableSpec
  by_cases h1 : fs.pathExists p <;> by_cases h2 : fs.isDir p <;>
    by_cases h3 : VALID_EXTENSIONS.contains (strToLower (pathSuffix p)) <;>
    by_cases h4 : fs.statSize p = 0 <;>
      simp_all [List.elem_iff, Nat.pos_iff_ne_zero]

/-- C10: launch_with_admin reports success with no process id for every
input and never spawns a process. -/
theorem launch_with_admin_always_succeeds_without_spawn
    (app_path : String) (args : List String) :
    launch_with_admin app_path args =
      ({ success := true, process_id := none, error_code := none,
         error_message := none }, false) := rfl

theorem find?_filter_ne {α : Type} [DecidableEq α] {β : Type}
    (l : List (α × β)) (k k' : α) (h : k' ≠ k) :
    ((l.filter (fun e => e.1 ≠ k)).find? (fun e => e.1 = k')) =
      l.find? (fun e => e.1 = k') := by
  induction l with
  | nil => rfl
  | cons a as ih =>
    by_cases ha : a.1 = k
    · simp [List.filter_cons, List.find?_cons, ha, Ne.symm h]
      simpa using ih
    · by_cases ha' : a.1 = k'
      · simp [List.filter_cons, List.find?_cons, ha, ha', h]
      · simp [List.filter_cons, List.find?_cons, ha, ha']
        simpa using ih

theorem fsLookup_fsSet_self (fs : CfgFS) (k : FKey) (f : CFile) :
    fsLookup (fsSet fs k f) k = some f := by
  unfold fsLookup fsSet
  rw [List.find?_cons]
  simp

theorem fsLookup_fsSet_other (fs : CfgFS) (k k' : FKey) (f : CFile) (h : k' ≠ k) :
    fsLookup (fsSet fs k f) k' = fsLookup fs k' := by
  unfold fsLookup fsSet
  rw [List.find?_cons]
  have h2 : (decide ((k, f).1 = k')) = false := by simp [Ne.symm h]
  rw [h2]
  rw [find?_filter_ne fs.files k k' h]

theorem fsLookup_fsWrite_self (fs : CfgFS) (k : FKey) (v : JValue) :
    fsLookup (fsWrite fs k v) k = some ⟨some v, fs.clock⟩ := by
  unfold fsWrite fsLookup
  have := fsLookup_fsSet_self fs k ⟨some v, fs.clock⟩
  unfold fsLookup at this
  exact this

theorem filter_ne_map_replace (es : List (String × JValue)) (v : JValue) (k : String) :
    (es.map (fun e => if e.1 = k then (k, v) else e)).filter (fun e => e.1 ≠ k) =
      es.filter (fun e => e.1 ≠ k) := by
  induction es with
  | nil => rfl
  | cons a as ih =>
    by_cases ha : a.1 = k
    · simp [List.filter_cons, ha]
      simpa using ih
    · simp [List.filter_cons, ha]
      simpa using ih

theorem stripMeta_objSet (es : List (String × JValue)) (v : JValue) :
    stripMeta (objSet es "_metadata" v) = stripMeta es := by
  unfold objSet stripMeta
  by_cases h : es.any (fun e => e.1 = "_metadata")
  · rw [if_pos h]
    exact filter_ne_map_replace es v "_metadata"
  · rw [if_neg h]
    rw [List.filter_append]
    simp

theorem missingKeyErrors_obj_ok (es : List (String × JValue)) (ks : List String)
    (h : ∀ k ∈ ks, es.any (fun e => e.1 = k) = true) :
    missingKeyErrors (.jobj es) ks = .ok [] := by
  induction ks with
  | nil => rfl
  | cons k ks ih =>
    have hk : es.any (fun e => e.1 = k) = true := h k (List.mem_cons_self k ks)
    simp only [missingKeyErrors, pyContains, hk,
      ih (fun x hx => h x (List.mem_cons_of_mem _ hx))]
    rfl

theorem bool_true_of_if_nil {b : Bool} {m : String}
    (h : (if !b then [m] else []) = []) : b = true := by
  cases hb : b
  · rw [hb] at h
    simp at h
  · rfl

theorem typed_of_getD {es : List (String × JValue)} {k : String} {v dflt : JValue}
    {pred : JValue → Bool}
    (hp : pred (objGetD es k dflt) = true) (hov : objFind es k = some v) :
    pred v = true := by
  simpa [objGetD, hov] using hp

theorem any_key_of_find (es : List (String × JValue)) (k : String)
    (h : (objFind es k).isSome = true) : es.any (fun e => e.1 = k) = true := by
  unfold objFind at h
  rw [List.any_eq_true]
  cases hf : es.find? (fun e => e.1 = k) with
  | none =>
    rw [hf] at h
    simp at h
  | some e =>
    refine ⟨e, List.mem_of_find?_eq_some hf, ?_⟩
    exact @List.find?_some _ (fun e => decide (e.1 = k)) e es hf

theorem filterMap_isEmpty_eq_not_any {α : Type} (f : α → Option String) (g : α → Bool)
    (hfg : ∀ a, (f a).isNone = !(g a)) (l : List α) :
    (l.filterMap f).isEmpty = !(l.any g) := by
  induction l with
  | nil => rfl
  | cons a as ih =>
    rw [List.filterMap_cons, List.any_cons]
    cases hfa : f a with
    | none =>
      have hh := hfg a
      rw [hfa] at hh
      have hga : g a = false := by simpa using hh.symm
      simp [hga, ih]
    | some m =>
      have hh := hfg a
      rw [hfa] at hh
      have hga : g a = true := by simpa using hh.symm
      simp [hga]

theorem basic_validation_fst_eq (es : List (String × JValue)) :
    (basic_validation (.jobj es)).1 = !(hasWrongType es) := by
  show (typeChecks.filterMap (basicCheckError es)).isEmpty = _
  unfold hasWrongType
  apply filterMap_isEmpty_eq_not_any
  intro tc
  unfold basicCheckError
  cases hov : objFind es tc.1 with
  | none => rfl
  | some v => cases hp : tc.2.2 v <;> simp [hp]

theorem validateObjErrors_nil_of_ok {es : List (String × JValue)}
    (h : validate_config (.jobj es) = .ok (true, [])) :
    validateObjErrors es = [] := by
  unfold validate_config at h
  cases hm : missingKeyErrors (.jobj es) requiredKeys with
  | error e =>
    rw [hm] at h
    cases h
  | ok merr =>
    rw [hm] at h
    cases hme : merr.isEmpty
    · simp [hme] at h
    · simp [hme] at h
      exact h

theorem basic_validation_ok_of_validate {es : List (String × JValue)}
    (h : validate_config (.jobj es) = .ok (true, [])) :
    (basic_validation (.jobj es)).1 = true := by
  have hve := validateObjErrors_nil_of_ok h
  unfold validateObjErrors at hve
  simp only [List.append_eq_nil, and_assoc] at hve
  obtain ⟨h1, h2, h3, h4, h5, h6⟩ := hve
  have happ := bool_true_of_if_nil h1
  have hfix := bool_true_of_if_nil h3
  have hauto := bool_true_of_if_nil h4
  have hver := bool_true_of_if_nil h6
  have hsize : isinstInt (objGetD es "icon_size" .jnull) = true := by
    cases hb : isinstInt (objGetD es "icon_size" .jnull)
    · rw [hb] at h5
      simp at h5
    · rfl
  have hipd : isinstDict (objGetD es "icon_position" (.jobj [])) = true := by
    cases hg : objGetD es "icon_position" (.jobj [])
    case jobj ip => rfl
    all_goals (rw [hg] at h2; simp at h2)
  rw [basic_validation_fst_eq]
  have hwt : hasWrongType es = false := by
    unfold hasWrongType
    rw [List.any_eq_false]
    intro tc htc
    simp only [typeChecks, List.mem_cons, List.not_mem_nil, or_false] at htc
    rcases htc with rfl | rfl | rfl | rfl | rfl | rfl
    · cases hov : objFind es "app_path" with
      | none => simp
      | some v => simp [hov, typed_of_getD happ hov]
    · cases hov : objFind es "icon_position" with
      | none => simp
      | some v => simp [hov, typed_of_getD hipd hov]
    · cases hov : objFind es "icon_fixed" with
      | none => simp
      | some v => simp [hov, typed_of_getD hfix hov]
    · cases hov : objFind es "auto_start" with
      | none => simp
      | some v => simp [hov, typed_of_getD hauto hov]
    · cases hov : objFind es "icon_size" with
      | none => simp
      | some v => simp [hov, typed_of_getD hsize hov]
    · cases hov : objFind es "version" with
      | none => simp
      | some v => simp [hov, typed_of_getD hver hov]
  rw [hwt]
  rfl

/-- C2 (amended): for every configuration object accepted by the strict
validator, save_config succeeds and a following load_config returns the
input with its _metadata key removed; when the input carries no
_metadata key of its own this is the input itself. -/
theorem save_load_round_trip (fs : CfgFS) (es : List (String × JValue))
    (h : validate_config (.jobj es) = .ok (true, [])) :
    (save_config fs (.jobj es)).1 = true ∧
    load_config (save_config fs (.jobj es)).2 =
      .ok (.jobj (stripMeta es), (save_config fs (.jobj es)).2) ∧
    ((∀ e ∈ es, e.1 ≠ "_metadata") → stripMeta es = es) := by
  have hb := basic_validation_ok_of_validate h
  have hsave : ∃ fs1 meta, save_config fs (.jobj es) =
      (true, fsWrite fs1 .config (.jobj (objSet es "_metadata" meta))) := by
    unfold save_config
    rw [hb]
    exact ⟨_, _, rfl⟩
  obtain ⟨fs1, meta, hs⟩ := hsave
  refine ⟨by rw [hs], ?_, ?_⟩
  · rw [hs]
    unfold load_config load_config_fuel
    simp only [fsLookup_fsWrite_self]
    rw [stripMeta_objSet]
  · intro hno
    unfold stripMeta
    rw [List.filter_eq_self]
    intro e he
    simpa using hno e he

/-- Witness for C2 at the default configuration and the empty store. -/
theorem save_load_round_trip_witness :
    (save_config ⟨[], 0⟩ (.jobj defaultEntries)).1 = true ∧
    load_config (save_config ⟨[], 0⟩ (.jobj defaultEntries)).2 =
      .ok (.jobj (stripMeta defaultEntries), (save_config ⟨[], 0⟩ (.jobj defaultEntries)).2) ∧
    ((∀ e ∈ defaultEntries, e.1 ≠ "_metadata") → stripMeta defaultEntries = defaultEntries) :=
  save_load_round_trip ⟨[], 0⟩ defaultEntries rfl

/-- C2 counterexample: metaConfig passes validate_config, yet save
followed by load does not return it: its own _metadata entry is
overwritten on save and stripped on load, so the result differs from
the input. -/
theorem save_load_metadata_collapse :
    validate_config metaConfig = .ok (true, []) ∧
    (save_config ⟨[], 0⟩ metaConfig).1 = true ∧
    (load_config (save_config ⟨[], 0⟩ metaConfig).2).toOption.map (fun x => x.1) =
      some default_config ∧
    default_config ≠ metaConfig :=
  ⟨rfl, rfl, rfl, fun hc => absurd (congrArg objLen hc) (by decide)⟩

/-- C4 (amended): restore_from_backup succeeds exactly on an existing
backup whose bytes parse as JSON; the JSON value itself is not inspected
(no schema validation), the live file becomes the backup file, and on
failure the state is untouched. -/
theorem restore_parses_or_fails (fs : CfgFS) (p : FKey) :
    ((restore_from_backup fs p).1 = true ↔ ∃ v m, fsLookup fs p = some ⟨some v, m⟩) ∧
    (∀ v m, fsLookup fs p = some ⟨some v, m⟩ →
      restore_from_backup fs p = (true, fsSet fs .config ⟨some v, m⟩)) ∧
    ((restore_from_backup fs p).1 = false → (restore_from_backup fs p).2 = fs) := by
  rcases hl : fsLookup fs p with _ | ⟨_ | w, fm⟩
  · have hr : restore_from_backup fs p = (false, fs) := by
      unfold restore_from_backup
      rw [hl]
    rw [hr]
    refine ⟨⟨fun h => absurd h (by simp), ?_⟩, ?_, fun _ => rfl⟩
    · rintro ⟨v, m, h⟩
      cases h
    · intro v m h
      cases h
  · have hr : restore_from_backup fs p = (false, fs) := by
      unfold restore_from_backup
      rw [hl]
    rw [hr]
    refine ⟨⟨fun h => absurd h (by simp), ?_⟩, ?_, fun _ => rfl⟩
    · rintro ⟨v, m, h⟩
      simp at h
    · intro v m h
      simp at h
  · have hr : restore_from_backup fs p = (true, fsSet fs .config ⟨some w, fm⟩) := by
      unfold restore_from_backup fsCopy2
      rw [hl]
    rw [hr]
    refine ⟨⟨fun _ => ⟨w, fm, rfl⟩, fun _ => rfl⟩, ?_, fun h => absurd h (by simp)⟩
    intro v m h
    simp at h
    rw [h.1, h.2]

/-- Witness for C4: a backup holding the JSON array [] (schema-invalid
but parseable) is restored successfully. -/
theorem restore_parses_or_fails_witness :
    restore_from_backup ⟨[(.backup "config_backup_1.json", ⟨some (.jarr []), 3⟩)], 9⟩
        (.backup "config_backup_1.json") =
      (true, fsSet ⟨[(.backup "config_backup_1.json", ⟨some (.jarr []), 3⟩)], 9⟩ .config
        ⟨some (.jarr []), 3⟩) :=
  (restore_parses_or_fails _ _).2.1 (.jarr []) 3 rfl

/-- C4 counterexample: the backup exists, yet restore_from_backup
returns false and leaves the store untouched, because the source
json.loads the backup before copying; the claim said an unparsable
backup would still be restored with result true. -/
theorem restore_rejects_unparsable_backup :
    fsExists brokenBackupFS (.backup "config_backup_1.json") = true ∧
    restore_from_backup brokenBackupFS (.backup "config_backup_1.json") =
      (false, brokenBackupFS) :=
  ⟨rfl, rfl⟩

/-- C5: with all six required keys present and well-typed but
icon_position.x an out-of-range integer, validate_config reports failure
with the x-range error while save_config still succeeds, because the
save path checks types only. -/
theorem validate_range_save_asymmetry (fs : CfgFS) (es ip : List (String × JValue)) (n : Int)
    (hkeys : ∀ k ∈ requiredKeys, (objFind es k).isSome = true)
    (htypes : (basic_validation (.jobj es)).1 = true)
    (hip : objFind es "icon_position" = some (.jobj ip))
    (hx : objFind ip "x" = some (.jint n))
    (hrange : n < -32768 ∨ 32767 < n) :
    (∃ errs, validate_config (.jobj es) = .ok (false, errs) ∧ xRangeMsg ∈ errs) ∧
    (save_config fs (.jobj es)).1 = true := by
  constructor
  · have hmk : missingKeyErrors (.jobj es) requiredKeys = .ok [] :=
      missingKeyErrors_obj_ok es requiredKeys (fun k hk => any_key_of_find es k (hkeys k hk))
    have hget : objGetD es "icon_position" (.jobj []) = .jobj ip := by
      simp [objGetD, hip]
    have hm : xRangeMsg ∈ validateObjErrors es := by
      unfold validateObjErrors
      refine List.mem_append_left _ (List.mem_append_left _ (List.mem_append_left _
        (List.mem_append_left _ (List.mem_append_right _ ?_))))
      rw [hget]
      refine List.mem_append_left _ ?_
      unfold coordErrors
      rw [hx]
      have hr : (decide (-32768 ≤ jintVal (.jint n) ∧ jintVal (.jint n) ≤ 32767)) = false := by
        rcases hrange with h | h <;> simp [jintVal] <;> omega
      simp only [isinstInt, Bool.not_true, Bool.false_eq_true, if_false, hr,
        Bool.not_false, if_true]
      show xRangeMsg ∈ ["icon_position." ++ "x" ++ " は -32768 から 32767 の範囲内である必要があります"]
      simp [xRangeMsg]
    have hne : (validateObjErrors es).isEmpty = false := by
      cases hE : validateObjErrors es
      · rw [hE] at hm
        cases hm
      · rfl
    refine ⟨validateObjErrors es, ?_, hm⟩
    unfold validate_config
    rw [hmk]
    simp [hne]
  · unfold save_config
    rw [htypes]
    rfl

/-- Witness for C5 at the configuration of the specification example. -/
theorem validate_range_save_asymmetry_witness :
    (∃ errs, validate_config (.jobj rangeCfg) = .ok (false, errs) ∧ xRangeMsg ∈ errs) ∧
    (save_config ⟨[], 0⟩ (.jobj rangeCfg)).1 = true :=
  validate_range_save_asymmetry ⟨[], 0⟩ rangeCfg
    [("x", .jint 9999999), ("y", .jint 5)] 9999999 (by decide) rfl rfl rfl (by decide)

/-- C8: save_config returns false and leaves the store untouched exactly
when the argument is not a mapping or some required key is present with
the wrong primitive type; an object with missing required keys but
well-typed present ones is still written. -/
theorem save_config_basic_gate (fs : CfgFS) (c : JValue) :
    (isinstDict c = false → save_config fs c = (false, fs)) ∧
    (∀ es, c = .jobj es → hasWrongType es = true → save_config fs c = (false, fs)) ∧
    (∀ es, c = .jobj es → hasWrongType es = false → (save_config fs c).1 = true) := by
  refine ⟨fun hd => ?_, fun es hc hw => ?_, fun es hc hw => ?_⟩
  · cases c with
    | jobj es => simp [isinstDict] at hd
    | jnull => rfl
    | jbool b => rfl
    | jint n => rfl
    | jstr s => rfl
    | jarr xs => rfl
  · subst hc
    unfold save_config
    rw [basic_validation_fst_eq, hw]
    rfl
  · subst hc
    unfold save_config
    rw [basic_validation_fst_eq, hw]
    rfl

/-- Witness for C8: a non-mapping is rejected without a write, a
mistyped icon_size is rejected without a write, and an object missing
five of the six keys is accepted. -/
theorem save_config_basic_gate_witness :
    save_config ⟨[], 0⟩ (.jint 3) = (false, ⟨[], 0⟩) ∧
    save_config ⟨[], 0⟩ (.jobj [("icon_size", .jstr "x")]) = (false, ⟨[], 0⟩) ∧
    (save_config ⟨[], 0⟩ (.jobj [("app_path", .jstr "a")])).1 = true :=
  ⟨(save_config_basic_gate ⟨[], 0⟩ (.jint 3)).1 rfl,
   (save_config_basic_gate ⟨[], 0⟩ (.jobj [("icon_size", .jstr "x")])).2.1 _ rfl rfl,
   (save_config_basic_gate ⟨[], 0⟩ (.jobj [("app_path", .jstr "a")])).2.2 _ rfl rfl⟩

theorem restore_false_unchanged (fs : CfgFS) (p : FKey)
    (h : (restore_from_backup fs p).1 = false) :
    (restore_from_backup fs p).2 = fs := by
  unfold restore_from_backup at h ⊢
  rcases hl : fsLookup fs p with _ | ⟨_ | w, fm⟩
  · rfl
  · rfl
  · rw [hl] at h
    simp at h

theorem restore_true_parses (fs : CfgFS) (p : FKey)
    (h : (restore_from_backup fs p).1 = true) :
    ∃ v m, fsLookup (restore_from_backup fs p).2 .config = some ⟨some v, m⟩ := by
  unfold restore_from_backup at h ⊢
  rcases hl : fsLookup fs p with _ | ⟨_ | w, fm⟩
  · rw [hl] at h
    simp at h
  · rw [hl] at h
    simp at h
  · refine ⟨w, fm, ?_⟩
    show fsLookup (fsCopy2 fs p .config) .config = _
    unfold fsCopy2
    rw [hl]
    exact fsLookup_fsSet_self fs .config ⟨some w, fm⟩

theorem tryRestoreLoop_true_parses (l : List (Nat × String)) (fs : CfgFS)
    (h : (tryRestoreLoop fs l).1 = true) :
    ∃ v m, fsLookup (tryRestoreLoop fs l).2 .config = some ⟨some v, m⟩ := by
  induction l generalizing fs with
  | nil => cases h
  | cons e rest ih =>
    simp only [tryRestoreLoop] at h ⊢
    rcases Bool.eq_false_or_eq_true ((restore_from_backup fs (.backup e.2)).1) with hr | hr
    · rw [hr] at h ⊢
      rw [if_pos (show (true : Bool) = true from rfl)] at h ⊢
      exact restore_true_parses fs _ hr
    · rw [hr] at h ⊢
      rw [if_neg (show ¬((false : Bool) = true) by simp)] at h ⊢
      exact ih _ h

theorem try_restore_true_parses (fs : CfgFS)
    (h : (try_restore_from_latest_backup fs).1 = true) :
    ∃ v m, fsLookup (try_restore_from_latest_backup fs).2 .config = some ⟨some v, m⟩ := by
  simp only [try_restore_from_latest_backup] at h ⊢
  rcases Bool.eq_false_or_eq_true (backupFiles fs).isEmpty with hb | hb
  · rw [hb] at h
    rw [if_pos (show (true : Bool) = true from rfl)] at h
    cases h
  · rw [hb] at h ⊢
    rw [if_neg (show ¬((false : Bool) = true) by simp)] at h ⊢
    exact tryRestoreLoop_true_parses _ fs h

theorem tryRestoreLoop_all_fail (l : List (Nat × String)) (fs : CfgFS)
    (h : ∀ e ∈ l, (restore_from_backup fs (.backup e.2)).1 = false) :
    tryRestoreLoop fs l = (false, fs) := by
  induction l with
  | nil => rfl
  | cons e rest ih =>
    have he := h e (List.mem_cons_self e rest)
    have hfs := restore_false_unchanged fs (.backup e.2) he
    simp only [tryRestoreLoop, he, hfs, Bool.false_eq_true, if_false]
    exact ih (fun x hx => h x (List.mem_cons_of_mem _ hx))

theorem tryRestoreLoop_first_success (bad : List (Nat × String)) (e : Nat × String)
    (rest : List (Nat × String)) (fs : CfgFS)
    (hbad : ∀ b ∈ bad, (restore_from_backup fs (.backup b.2)).1 = false)
    (hok : (restore_from_backup fs (.backup e.2)).1 = true) :
    tryRestoreLoop fs (bad ++ e :: rest) =
      (true, (restore_from_backup fs (.backup e.2)).2) := by
  induction bad with
  | nil =>
    simp only [List.nil_append, tryRestoreLoop, hok, if_true]
  | cons b bs ih =>
    have hb := hbad b (List.mem_cons_self b bs)
    have hfs := restore_false_unchanged fs (.backup b.2) hb
    simp only [List.cons_append, tryRestoreLoop, hb, hfs, Bool.false_eq_true, if_false]
    exact ih (fun x hx => hbad x (List.mem_cons_of_mem _ hx))

theorem missingKeyErrors_obj_isOk (es : List (String × JValue)) (ks : List String) :
    (missingKeyErrors (.jobj es) ks).isOk = true := by
  induction ks with
  | nil => rfl
  | cons k ks ih =>
    simp only [missingKeyErrors, pyContains]
    cases hm : missingKeyErrors (.jobj es) ks with
    | error e =>
      rw [hm] at ih
      cases ih
    | ok merr => rfl

theorem missingKeyErrors_str_isOk (s : String) (ks : List String) :
    (missingKeyErrors (.jstr s) ks).isOk = true := by
  induction ks with
  | nil => rfl
  | cons k ks ih =>
    simp only [missingKeyErrors, pyContains]
    cases hm : missingKeyErrors (.jstr s) ks with
    | error e =>
      rw [hm] at ih
      cases ih
    | ok merr => rfl

theorem missingKeyErrors_arr_isOk (xs : List JValue) (ks : List String) :
    (missingKeyErrors (.jarr xs) ks).isOk = true := by
  induction ks with
  | nil => rfl
  | cons k ks ih =>
    simp only [missingKeyErrors, pyContains]
    cases hm : missingKeyErrors (.jarr xs) ks with
    | error e =>
      rw [hm] at ih
      cases ih
    | ok merr => rfl

theorem validate_config_obj_isOk (es : List (String × JValue)) :
    (validate_config (.jobj es)).isOk = true := by
  unfold validate_config
  cases hm : missingKeyErrors (.jobj es) requiredKeys with
  | error e =>
    have := missingKeyErrors_obj_isOk es requiredKeys
    rw [hm] at this
    cases this
  | ok merr =>
    cases hme : merr.isEmpty <;> simp [hme, Except.isOk, Except.toBool]

/-- C6 (amended): with OS-level I/O failures out of scope, the only
exception that crosses load_config is AttributeError (raised when a
non-object JSON value reaches the dict comprehension), and
validate_config returns a value on every mapping, raising only
TypeError or AttributeError on non-mapping arguments; the remaining
public methods of both components are total functions of the model. -/
theorem public_method_exception_profile :
    (∀ fs : CfgFS, (load_config fs).isOk = true ∨
      load_config fs = .error .attributeError) ∧
    (∀ c : JValue, (validate_config c).isOk = true ∨
      (isinstDict c = false ∧
        (validate_config c = .error .typeError ∨
         validate_config c = .error .attributeError))) := by
  constructor
  · intro fs
    unfold load_config load_config_fuel
    cases hl : fsLookup fs .config with
    | none => left; rfl
    | some f =>
      obtain ⟨fc, fm⟩ := f
      cases hfc : fc with
      | some v =>
        cases v
        case jobj es => left; rfl
        all_goals (right; rfl)
      | none =>
        rcases Bool.eq_false_or_eq_true (try_restore_from_latest_backup fs).1 with hr | hr
        · rw [hr, if_pos (show (true : Bool) = true from rfl)]
          obtain ⟨v, m, hp⟩ := try_restore_true_parses fs hr
          unfold load_config_fuel
          rw [hp]
          cases v
          case jobj es => left; rfl
          all_goals (right; rfl)
        · rw [hr, if_neg (show ¬((false : Bool) = true) by simp)]
          left
          rfl
  · intro c
    cases c with
    | jobj es => exact Or.inl (validate_config_obj_isOk es)
    | jnull => exact Or.inr ⟨rfl, Or.inl rfl⟩
    | jbool b => exact Or.inr ⟨rfl, Or.inl rfl⟩
    | jint n => exact Or.inr ⟨rfl, Or.inl rfl⟩
    | jstr s =>
      cases hm : missingKeyErrors (.jstr s) requiredKeys with
      | error e =>
        have hok := missingKeyErrors_str_isOk s requiredKeys
        rw [hm] at hok
        cases hok
      | ok merr =>
        cases hme : merr.isEmpty
        · left
          simp [validate_config, hm, hme, Except.isOk, Except.toBool]
        · right
          refine ⟨rfl, Or.inr ?_⟩
          simp [validate_config, hm, hme]
    | jarr xs =>
      cases hm : missingKeyErrors (.jarr xs) requiredKeys with
      | error e =>
        have hok := missingKeyErrors_arr_isOk xs requiredKeys
        rw [hm] at hok
        cases hok
      | ok merr =>
        cases hme : merr.isEmpty
        · left
          simp [validate_config, hm, hme, Except.isOk, Except.toBool]
        · right
          refine ⟨rfl, Or.inr ?_⟩
          simp [validate_config, hm, hme]

/-- C6 counterexample: validate_config applied to the integer 42 raises
TypeError (Python: argument of type int is not iterable in the
`key not in config` test), so an exception does cross a public method
boundary. -/
theorem validate_config_raises_on_int :
    validate_config (.jint 42) = .error .typeError := rfl

/-- C3 (amended): with a malformed live file, load_config scans the
backups sorted by (mtime, path) descending, restores at the first backup
that parses as JSON, and retries the load once: if that backup holds a
JSON object the load returns its content modulo _metadata, but if it
holds a non-object JSON value the retried load raises AttributeError;
when no backup parses, the default configuration is returned and
persisted. -/
theorem load_config_corruption_recovery (fs : CfgFS) (m0 : Nat)
    (hlive : fsLookup fs .config = some ⟨none, m0⟩) :
    (∀ bad e rest, (pySort (backupFiles fs)).reverse = bad ++ e :: rest →
      (∀ b ∈ bad, (restore_from_backup fs (.backup b.2)).1 = false) →
      ((∀ es me, fsLookup fs (.backup e.2) = some ⟨some (.jobj es), me⟩ →
        load_config fs =
          .ok (.jobj (stripMeta es), fsSet fs .config ⟨some (.jobj es), me⟩)) ∧
       (∀ v me, fsLookup fs (.backup e.2) = some ⟨some v, me⟩ → isinstDict v = false →
        load_config fs = .error .attributeError))) ∧
    ((∀ b ∈ backupFiles fs, (restore_from_backup fs (.backup b.2)).1 = false) →
      load_config fs = .ok (default_config, (save_config fs default_config).2)) := by
  constructor
  · intro bad e rest hdec hbad
    have hne : (backupFiles fs).isEmpty = false := by
      cases hbf : backupFiles fs with
      | nil =>
        exfalso
        have hlen := congrArg List.length hdec
        rw [hbf] at hlen
        simp [pySort] at hlen
        omega
      | cons x xs => rfl
    have hstep : ∀ v me, fsLookup fs (.backup e.2) = some ⟨some v, me⟩ →
        load_config fs = load_config_fuel 1 (fsSet fs .config ⟨some v, me⟩) := by
      intro v me he
      have hok : (restore_from_backup fs (.backup e.2)).1 = true := by
        unfold restore_from_backup
        rw [he]
      have hres : (restore_from_backup fs (.backup e.2)).2 =
          fsSet fs .config ⟨some v, me⟩ := by
        unfold restore_from_backup fsCopy2
        rw [he]
      have htry : try_restore_from_latest_backup fs =
          (true, fsSet fs .config ⟨some v, me⟩) := by
        unfold try_restore_from_latest_backup
        rw [hne]
        rw [if_neg (show ¬((false : Bool) = true) by simp)]
        rw [hdec]
        rw [tryRestoreLoop_first_success bad e rest fs hbad hok]
        rw [hres]
      have h1 : (try_restore_from_latest_backup fs).1 = true := by rw [htry]
      have h2 : (try_restore_from_latest_backup fs).2 =
          fsSet fs .config ⟨some v, me⟩ := by rw [htry]
      unfold load_config load_config_fuel
      rw [hlive]
      rw [h1, if_pos (show (true : Bool) = true from rfl), h2]
      rfl
    constructor
    · intro es me he
      rw [hstep (.jobj es) me he]
      unfold load_config_fuel
      rw [fsLookup_fsSet_self]
    · intro v me he hd
      rw [hstep v me he]
      unfold load_config_fuel
      rw [fsLookup_fsSet_self]
      cases v
      case jobj es => simp [isinstDict] at hd
      all_goals rfl
  · intro hall
    have htry : try_restore_from_latest_backup fs = (false, fs) := by
      unfold try_restore_from_latest_backup
      cases hb : (backupFiles fs).isEmpty
      · rw [if_neg (show ¬((false : Bool) = true) by simp)]
        refine tryRestoreLoop_all_fail _ fs ?_
        intro b hbm
        refine hall b ?_
        have := List.mem_reverse.mp hbm
        exact (List.perm_insertionSort pairLeP (backupFiles fs)).mem_iff.mp this
      · rw [if_pos (show (true : Bool) = true from rfl)]
    have h1 : (try_restore_from_latest_backup fs).1 = false := by rw [htry]
    have h2 : (try_restore_from_latest_backup fs).2 = fs := by rw [htry]
    unfold load_config load_config_fuel
    rw [hlive]
    rw [h1, if_neg (show ¬((false : Bool) = true) by simp), h2]

/-- C3 counterexample: the live file is malformed and parseable backups
exist, yet load_config raises AttributeError instead of returning the
content of any backup: the most recent parseable backup holds a JSON
array, restoration succeeds, and the retried load trips over the
non-object value. -/
theorem load_config_corruption_raises :
    fsLookup corruptFS .config = some ⟨none, 0⟩ ∧
    fsLookup corruptFS (.backup "config_backup_2.json") = some ⟨some (.jarr [.jint 1]), 2⟩ ∧
    fsLookup corruptFS (.backup "config_backup_1.json") = some ⟨some default_config, 1⟩ ∧
    load_config corruptFS = .error .attributeError :=
  ⟨rfl, rfl, rfl, rfl⟩

/-- Witness for C3: recovery from the only backup, an object. -/
theorem load_config_corruption_recovery_witness :
    load_config recoverFS =
      .ok (.jobj (stripMeta [("a", .jint 1)]),
        fsSet recoverFS .config ⟨some (.jobj [("a", .jint 1)]), 1⟩) :=
  ((load_config_corruption_recovery recoverFS 0 rfl).1 [] (1, "config_backup_1.json") []
    rfl (by simp)).1 [("a", .jint 1)] 1 rfl

theorem filterMap_backupEntry_filter_ne (l : List (FKey × CFile)) (n : String) :
    ((l.filter (fun e => e.1 ≠ FKey.backup n)).filterMap backupEntry?) =
      (l.filterMap backupEntry?).filter (fun b => decide (b.2 ≠ n)) := by
  induction l with
  | nil => rfl
  | cons e es ih =>
    rcases e with ⟨k, f⟩
    cases k with
    | config => simpa [List.filter_cons, List.filterMap_cons, backupEntry?] using ih
    | backup m =>
      by_cases hm : m = n
      · subst hm
        by_cases hbn : isBackupName m
        · simpa [List.filter_cons, List.filterMap_cons, backupEntry?, hbn] using ih
        · simpa [List.filter_cons, List.filterMap_cons, backupEntry?, hbn] using ih
      · by_cases hbn : isBackupName m
        · simpa [List.filter_cons, List.filterMap_cons, backupEntry?, hbn, hm] using ih
        · simpa [List.filter_cons, List.filterMap_cons, backupEntry?, hbn, hm] using ih

theorem backupFiles_fsRemove_backup (fs : CfgFS) (n : String) :
    backupFiles (fsRemove fs (.backup n)) =
      (backupFiles fs).filter (fun b => decide (b.2 ≠ n)) := by
  unfold backupFiles fsRemove
  exact filterMap_backupEntry_filter_ne fs.files n

theorem backupFiles_foldl_remove (R : List (Nat × String)) (g : CfgFS) :
    backupFiles (R.foldl (fun f e => fsRemove f (.backup e.2)) g) =
      (backupFiles g).filter (fun b => decide (b.2 ∉ R.map (fun e => e.2))) := by
  induction R generalizing g with
  | nil => simp
  | cons r R ih =>
    rw [List.foldl_cons]
    rw [ih (fsRemove g (.backup r.2))]
    rw [backupFiles_fsRemove_backup]
    rw [List.filter_filter]
    refine List.filter_congr ?_
    intro b hb
    by_cases h1 : b.2 = r.2 <;> by_cases h2 : b.2 ∈ R.map (fun e => e.2) <;>
      simp [h1, h2]

theorem mem_names_backup_key (l : List (FKey × CFile)) (n : String)
    (h : n ∈ (l.filterMap backupEntry?).map (fun e => e.2)) :
    FKey.backup n ∈ l.map (fun e => e.1) := by
  induction l with
  | nil => simp at h
  | cons e es ih =>
    rcases e with ⟨k, f⟩
    cases k with
    | config =>
      rw [List.filterMap_cons] at h
      simp only [backupEntry?] at h
      simp only [List.map_cons]
      exact List.mem_cons_of_mem _ (ih h)
    | backup m =>
      by_cases hbn : isBackupName m
      · rw [List.filterMap_cons] at h
        simp only [backupEntry?, hbn, if_pos] at h
        rw [List.map_cons, List.mem_cons] at h
        rcases h with h | h
        · simp only [List.map_cons]
          exact h ▸ List.mem_cons_self _ _
        · exact List.mem_cons_of_mem _ (ih h)
      · rw [List.filterMap_cons] at h
        simp only [backupEntry?, hbn, Bool.false_eq_true, if_false] at h
        exact List.mem_cons_of_mem _ (ih h)

theorem backupFiles_names_nodup (l : List (FKey × CFile))
    (h : (l.map (fun e => e.1)).Nodup) :
    ((l.filterMap backupEntry?).map (fun e => e.2)).Nodup := by
  induction l with
  | nil => simp
  | cons e es ih =>
    rcases e with ⟨k, f⟩
    rw [List.map_cons] at h
    obtain ⟨hk, hes⟩ := List.nodup_cons.mp h
    cases k with
    | config =>
      rw [List.filterMap_cons]
      simpa only [backupEntry?] using ih hes
    | backup m =>
      by_cases hbn : isBackupName m
      · rw [List.filterMap_cons]
        simp only [backupEntry?, hbn, if_pos, List.map_cons]
        refine List.nodup_cons.mpr ⟨?_, ih hes⟩
        intro hmem
        exact hk (mem_names_backup_key es m hmem)
      · rw [List.filterMap_cons]
        simpa only [backupEntry?, hbn, Bool.false_eq_true, if_false] using ih hes

theorem fsSet_keys_nodup (fs : CfgFS) (k : FKey) (f : CFile)
    (h : (fs.files.map (fun e => e.1)).Nodup) :
    ((fsSet fs k f).files.map (fun e => e.1)).Nodup := by
  unfold fsSet
  rw [List.map_cons]
  refine List.nodup_cons.mpr ⟨?_, ?_⟩
  · intro hk
    obtain ⟨e, he, hek⟩ := List.mem_map.mp hk
    have hne := List.of_mem_filter he
    rw [hek] at hne
    simp at hne
  · have hsub : List.Sublist ((fs.files.filter (fun e => e.1 ≠ k)).map (fun e => e.1))
        (fs.files.map (fun e => e.1)) :=
      List.Sublist.map _ (List.filter_sublist fs.files)
    exact List.Nodup.sublist hsub h

theorem filter_keys_eq_self (l : List (FKey × CFile)) (k : FKey)
    (h : k ∉ l.map (fun e => e.1)) :
    l.filter (fun e => e.1 ≠ k) = l := by
  rw [List.filter_eq_self]
  intro e he
  simp only [ne_eq, decide_eq_true_eq]
  intro hek
  exact h (List.mem_map.mpr ⟨e, he, hek⟩)

theorem backupFiles_fsSet_fresh (fs : CfgFS) (n : String) (f : CFile)
    (hfresh : FKey.backup n ∉ fs.files.map (fun e => e.1)) (hn : isBackupName n = true) :
    backupFiles (fsSet fs (.backup n) f) = (f.mtime, n) :: backupFiles fs := by
  unfold backupFiles fsSet
  rw [List.filterMap_cons]
  simp only [backupEntry?, hn, if_pos]
  rw [filter_keys_eq_self fs.files (.backup n) hfresh]

theorem filterMap_backupEntry_filter_config (l : List (FKey × CFile)) :
    (l.filter (fun e => e.1 ≠ FKey.config)).filterMap backupEntry? =
      l.filterMap backupEntry? := by
  induction l with
  | nil => rfl
  | cons e es ih =>
    rcases e with ⟨k, f⟩
    cases k with
    | config => simpa [List.filter_cons, List.filterMap_cons, backupEntry?] using ih
    | backup m =>
      by_cases hbn : isBackupName m
      · simpa [List.filter_cons, List.filterMap_cons, backupEntry?, hbn] using ih
      · simpa [List.filter_cons, List.filterMap_cons, backupEntry?, hbn] using ih

theorem backupFiles_fsSet_config (fs : CfgFS) (f : CFile) :
    backupFiles (fsSet fs .config f) = backupFiles fs := by
  unfold backupFiles fsSet
  rw [List.filterMap_cons]
  simp only [backupEntry?]
  exact filterMap_backupEntry_filter_config fs.files

theorem backupFiles_fsWrite_config (fs : CfgFS) (v : JValue) :
    backupFiles (fsWrite fs .config v) = backupFiles fs := by
  unfold fsWrite
  show backupFiles (fsSet fs .config ⟨some v, fs.clock⟩) = backupFiles fs
  exact backupFiles_fsSet_config fs ⟨some v, fs.clock⟩

theorem cleanup_conclusions (g : CfgFS)
    (hnames : ((backupFiles g).map (fun e => e.2)).Nodup) :
    (backupFiles (cleanup_old_backups g)).length ≤ 5 ∧
    ∀ r ∈ backupFiles g, r ∉ backupFiles (cleanup_old_backups g) →
      ∀ k ∈ backupFiles (cleanup_old_backups g), pairLeP r k := by
  rcases Nat.lt_or_ge 5 (backupFiles g).length with hlen | hlen
  · have hcl : backupFiles (cleanup_old_backups g) =
        (backupFiles g).filter (fun b => decide (b.2 ∉
          ((pySort (backupFiles g)).take ((backupFiles g).length - 5)).map
            (fun e => e.2))) := by
      unfold cleanup_old_backups
      rw [if_pos hlen]
      exact backupFiles_foldl_remove _ g
    have hperm : List.Perm (pySort (backupFiles g)) (backupFiles g) :=
      List.perm_insertionSort pairLeP (backupFiles g)
    have hsplit : pySort (backupFiles g) =
        (pySort (backupFiles g)).take ((backupFiles g).length - 5) ++
        (pySort (backupFiles g)).drop ((backupFiles g).length - 5) :=
      (List.take_append_drop _ _).symm
    have hsorted : List.Pairwise pairLeP (pySort (backupFiles g)) :=
      List.sorted_insertionSort pairLeP (backupFiles g)
    have hRD : ∀ r ∈ (pySort (backupFiles g)).take ((backupFiles g).length - 5),
        ∀ d ∈ (pySort (backupFiles g)).drop ((backupFiles g).length - 5), pairLeP r d := by
      rw [hsplit] at hsorted
      exact (List.pairwise_append.mp hsorted).2.2
    have hlenD : ((pySort (backupFiles g)).drop ((backupFiles g).length - 5)).length = 5 := by
      rw [List.length_drop, hperm.length_eq]
      omega
    constructor
    · rw [hcl]
      have hndk : (((backupFiles g).filter (fun b => decide (b.2 ∉
          ((pySort (backupFiles g)).take ((backupFiles g).length - 5)).map
            (fun e => e.2)))).map (fun e => e.2)).Nodup := by
        refine List.Nodup.sublist ?_ hnames
        exact List.Sublist.map _ (List.filter_sublist _)
      have hsubset : (((backupFiles g).filter (fun b => decide (b.2 ∉
          ((pySort (backupFiles g)).take ((backupFiles g).length - 5)).map
            (fun e => e.2)))).map (fun e => e.2)) ⊆
          ((pySort (backupFiles g)).drop ((backupFiles g).length - 5)).map
            (fun e => e.2) := by
        intro n hn
        obtain ⟨b, hb, rfl⟩ := List.mem_map.mp hn
        obtain ⟨hbs, hpred⟩ := List.mem_filter.mp hb
        have hbps : b ∈ pySort (backupFiles g) := hperm.mem_iff.mpr hbs
        rw [hsplit] at hbps
        rcases List.mem_append.mp hbps with hbR | hbD
        · exfalso
          simp only [decide_eq_true_eq] at hpred
          exact hpred (List.mem_map_of_mem _ hbR)
        · exact List.mem_map_of_mem _ hbD
      have := (List.Nodup.subperm hndk hsubset).length_le
      rw [List.length_map, List.length_map, hlenD] at this
      exact this
    · intro r hr hnr k hk
      rw [hcl] at hnr hk
      obtain ⟨hkbs, hkpred⟩ := List.mem_filter.mp hk
      have hrR : r ∈ (pySort (backupFiles g)).take ((backupFiles g).length - 5) := by
        have hrname : r.2 ∈ ((pySort (backupFiles g)).take ((backupFiles g).length - 5)).map
            (fun e => e.2) := by
          by_contra hx
          exact hnr (List.mem_filter.mpr ⟨hr, by simpa using hx⟩)
        obtain ⟨t, htR, htr⟩ := List.mem_map.mp hrname
        have htps : t ∈ pySort (backupFiles g) := List.mem_of_mem_take htR
        have htbs : t ∈ backupFiles g := hperm.mem_iff.mp htps
        have := List.inj_on_of_nodup_map hnames htbs hr htr
        rw [← this]
        exact htR
      have hkD : k ∈ (pySort (backupFiles g)).drop ((backupFiles g).length - 5) := by
        have hkps : k ∈ pySort (backupFiles g) := hperm.mem_iff.mpr hkbs
        rw [hsplit] at hkps
        rcases List.mem_append.mp hkps with hkR | hkD
        · exfalso
          simp only [decide_eq_true_eq] at hkpred
          exact hkpred (List.mem_map_of_mem _ hkR)
        · exact hkD
      exact hRD r hrR k hkD
  · have hid : cleanup_old_backups g = g := by
      unfold cleanup_old_backups
      rw [if_neg (Nat.not_lt.mpr hlen)]
    rw [hid]
    exact ⟨hlen, fun r hr hnr k hk => absurd hr hnr⟩

theorem isBackupName_backupStamp (ts : Nat) : isBackupName (backupStamp ts) = true := by
  unfold isBackupName backupStamp strStartsWith strEndsWith
  rw [Bool.and_eq_true]
  constructor
  · rw [List.isPrefixOf_iff_prefix]
    rw [String.data_append, String.data_append]
    rw [List.append_assoc]
    exact List.prefix_append _ _
  · rw [List.isSuffixOf_iff_suffix]
    rw [String.data_append]
    exact List.suffix_append _ _

theorem backup_config_spec (fs : CfgFS) (f0 : CFile)
    (hf0 : fsLookup fs .config = some f0) :
    (backup_config fs).2 =
      cleanup_old_backups
        (fsSet ⟨fs.files, fs.clock + 1⟩ (.backup (backupStamp fs.clock)) f0) := by
  have hex : fsExists fs .config = true := by
    unfold fsExists
    rw [hf0]
    rfl
  unfold backup_config
  rw [hex]
  rw [if_neg (show ¬((!(true : Bool)) = true) by simp)]
  unfold fsCopy2
  have hf0x : fsLookup (⟨fs.files, fs.clock + 1⟩ : CfgFS) .config = some f0 := hf0
  rw [hf0x]

/-- C7 (amended): on a well-formed store (distinct path keys, no
future-stamped backup names), every successful backup_config, and every
successful save_config that found a live file to back up, leaves at most
five backups, and every deleted backup sits at or below every retained
one in the (mtime, path) order; starting from an empty store, six
successive saves all succeed and leave exactly the five backups created
by the last five saves. -/
theorem backup_rotation_bounded (fs : CfgFS) (c : JValue)
    (hnd : (fs.files.map (fun e => e.1)).Nodup)
    (hfresh : ∀ n, fs.clock ≤ n → FKey.backup (backupStamp n) ∉ fs.files.map (fun e => e.1)) :
    (fsExists fs .config = true →
      (get_backup_count (backup_config fs).2 ≤ 5 ∧
        ∀ r ∈ backupFiles fs, r ∉ backupFiles (backup_config fs).2 →
          ∀ k ∈ backupFiles (backup_config fs).2, pairLeP r k) ∧
      ((save_config fs c).1 = true →
        get_backup_count (save_config fs c).2 ≤ 5 ∧
        ∀ r ∈ backupFiles fs, r ∉ backupFiles (save_config fs c).2 →
          ∀ k ∈ backupFiles (save_config fs c).2, pairLeP r k)) ∧
    (pySort (backupFiles (saveN 6 ⟨[], 0⟩)) =
        [(0, "config_backup_1.json"), (2, "config_backup_3.json"),
         (4, "config_backup_5.json"), (6, "config_backup_7.json"),
         (8, "config_backup_9.json")] ∧
      get_backup_count (saveN 6 ⟨[], 0⟩) = 5 ∧
      ∀ i < 6, (save_config (saveN i ⟨[], 0⟩) default_config).1 = true) := by
  constructor
  · intro hex
    obtain ⟨f0, hf0⟩ : ∃ f0, fsLookup fs .config = some f0 := by
      unfold fsExists at hex
      cases hl : fsLookup fs .config
      · rw [hl] at hex
        cases hex
      · exact ⟨_, rfl⟩
    have hspec := backup_config_spec fs f0 hf0
    have hfr : FKey.backup (backupStamp fs.clock) ∉ fs.files.map (fun e => e.1) :=
      hfresh fs.clock (le_refl _)
    have hmid : backupFiles
        (fsSet ⟨fs.files, fs.clock + 1⟩ (.backup (backupStamp fs.clock)) f0) =
        (f0.mtime, backupStamp fs.clock) :: backupFiles fs :=
      backupFiles_fsSet_fresh ⟨fs.files, fs.clock + 1⟩ (backupStamp fs.clock) f0 hfr
        (isBackupName_backupStamp fs.clock)
    have hnodmid : ((backupFiles
        (fsSet ⟨fs.files, fs.clock + 1⟩ (.backup (backupStamp fs.clock)) f0)).map
          (fun e => e.2)).Nodup :=
      backupFiles_names_nodup _
        (fsSet_keys_nodup ⟨fs.files, fs.clock + 1⟩ (.backup (backupStamp fs.clock)) f0 hnd)
    obtain ⟨hcount, hpair⟩ := cleanup_conclusions _ hnodmid
    have hbackup : get_backup_count (backup_config fs).2 ≤ 5 ∧
        ∀ r ∈ backupFiles fs, r ∉ backupFiles (backup_config fs).2 →
          ∀ k ∈ backupFiles (backup_config fs).2, pairLeP r k := by
      rw [hspec]
      refine ⟨hcount, ?_⟩
      intro r hr hnr k hk
      have hrmid : r ∈ backupFiles
          (fsSet ⟨fs.files, fs.clock + 1⟩ (.backup (backupStamp fs.clock)) f0) := by
        rw [hmid]
        exact List.mem_cons_of_mem _ hr
      exact hpair r hrmid hnr k hk
    refine ⟨hbackup, ?_⟩
    intro hsucc
    have hb : (basic_validation c).1 = true := by
      by_contra hx
      have hbf : (basic_validation c).1 = false := bool_eq_false hx
      unfold save_config at hsucc
      rw [hbf] at hsucc
      simp at hsucc
    obtain ⟨es, rfl⟩ : ∃ es, c = .jobj es := by
      cases c
      case jobj es => exact ⟨es, rfl⟩
      all_goals (exfalso; simp [basic_validation] at hb)
    have hsave : ∃ meta, save_config fs (.jobj es) =
        (true, fsWrite (backup_config fs).2 .config (.jobj (objSet es "_metadata" meta))) := by
      unfold save_config
      rw [hb, hex]
      exact ⟨_, rfl⟩
    obtain ⟨meta, hs⟩ := hsave
    constructor
    · rw [hs]
      show get_backup_count (fsWrite (backup_config fs).2 .config _) ≤ 5
      unfold get_backup_count
      rw [backupFiles_fsWrite_config]
      exact hbackup.1
    · intro r hr hnr k hk
      rw [hs] at hnr hk
      have hnr2 : r ∉ backupFiles (backup_config fs).2 := by
        rw [← backupFiles_fsWrite_config (backup_config fs).2
          (.jobj (objSet es "_metadata" meta))]
        exact hnr
      have hk2 : k ∈ backupFiles (backup_config fs).2 := by
        rw [← backupFiles_fsWrite_config (backup_config fs).2
          (.jobj (objSet es "_metadata" meta))]
        exact hk
      exact hbackup.2 r hr hnr2 k hk2
  · exact ⟨rfl, rfl, by decide⟩

/-- C7 counterexample: a successful save_config onto a store with six
backups but no live file performs no backup and no rotation, so six
backups remain after the save, against the claimed bound of five. -/
theorem save_without_live_file_skips_rotation :
    (save_config sixBackupFS default_config).1 = true ∧
    get_backup_count sixBackupFS = 6 ∧
    get_backup_count (save_config sixBackupFS default_config).2 = 6 :=
  ⟨rfl, rfl, rfl⟩

/-- Witness for C7 at the empty store. -/
theorem backup_rotation_bounded_witness :
    get_backup_count (saveN 6 ⟨[], 0⟩) = 5 ∧
    ∀ i < 6, (save_config (saveN i ⟨[], 0⟩) default_config).1 = true :=
  ⟨(backup_rotation_bounded ⟨[], 0⟩ default_config (by simp)
      (fun n _ => by simp)).2.2.1,
   (backup_rotation_bounded ⟨[], 0⟩ default_config (by simp)
      (fun n _ => by simp)).2.2.2⟩
